import Mathlib

/-!
# Verification of the parameter-framework criterion engine

Shallow embedding of `src/parameter/criterion` (the `Criterion` /
`InclusiveCriterion` value objects and the `Criteria` registry) together
with proofs of the specified properties.

The registry implementation (`Criteria.cpp`) is present in the sources and
is embedded directly.  The bodies of the `Criterion` methods are only
declared in `Criterion.h`; their behaviour is modelled from the
specification where noted.

Numeric criterion states are `int32_t` bit patterns in the C++ code; the
only operations ever applied to them are storage, equality tests and
bitwise AND, so they are embedded as the corresponding `Nat` bit patterns
(bitwise AND on the pattern agrees with two's-complement `&`, and pattern
equality agrees with `int32_t` equality).
-/

set_option autoImplicit false

namespace PfwCriterion

/-! ## `std::map` embedding

`Criterion.h` and `Criteria.cpp` use `std::map<std::string, V>`: an ordered
map iterated in key order, whose `emplace` does nothing when the key is
already present, whose `at` throws `std::out_of_range` on a missing key,
and whose `find`-style lookups are total. It is embedded as an association
list kept sorted by key (keys unique).
-/

/-- Total lookup in an association list: the value bound to `k`, if any
(`std::map::find` dereferenced). -/
def mapFind {V : Type} (k : String) : List (String × V) → Option V
  | [] => none
  | p :: rest => if p.1 = k then some p.2 else mapFind k rest

/-- `std::map::at`: yields the bound value or throws `std::out_of_range`
(embedded as `Except.error`). -/
def mapAt {V : Type} (k : String) (m : List (String × V)) : Except String V :=
  match mapFind k m with
  | some v => Except.ok v
  | none => Except.error "map::at: out of range"

/-- `std::map::emplace`: when `k` is already bound the map is left
unchanged (the insertion attempt is ignored); otherwise the pair is
inserted.  `std::map` iterates in key order; the embedding keeps entries
in insertion order instead — no verified property depends on which
traversal order the map uses. -/
def mapEmplace {V : Type} (k : String) (v : V) (m : List (String × V)) :
    List (String × V) :=
  match mapFind k m with
  | some _ => m
  | none => m ++ [(k, v)]

/-! ## Criterion -/

/-- The concrete kind of a criterion: `Criterion` (exclusive) or its
`InclusiveCriterion` specialization.  In the C++ code the kind is the
dynamic class of the object; it selects the match-method table built at
construction time and the formatting policy. -/
inductive CriterionKind where
  | exclusive
  | inclusive
deriving DecidableEq, Repr

/-- State of a `core::criterion::Criterion` object (`Criterion.h`):
value-pair table `mValuePairs` (a `std::map` from literal to numeric
value), current state `mState`, modification counter
`_uiNbModifications`, immutable name `mName`.  The logger member is
diagnostic only and is not modelled.  The `const` match-method table
`mMatchMethods` is fixed at construction by the kind and is recovered from
the `kind` field (see `matchMethodsOf`). -/
structure Criterion where
  mName : String
  mValuePairs : List (String × Nat)
  mState : Nat
  nbModifications : Nat
  kind : CriterionKind
deriving DecidableEq, Repr

/-- Modelled from the spec: the match-method tables of `Criterion.cpp` and
`InclusiveCriterion.cpp` are absent from the sources. Exclusive kind:
"Is" (state equals the argument) and "Is Not" (state differs), and no
others; inclusive kind: "Includes" ((state & arg) == arg) and "Excludes"
((state & arg) == 0), and no others. Each entry maps the method name to a
predicate taking the current state and the state to match (listed in
`std::map` key order). -/
def matchMethodsOf : CriterionKind → List (String × (Nat → Nat → Bool))
  | .exclusive =>
    [("Is", fun current arg => current == arg),
     ("Is Not", fun current arg => current != arg)]
  | .inclusive =>
    [("Excludes", fun current arg => current &&& arg == 0),
     ("Includes", fun current arg => current &&& arg == arg)]

/-- Modelled from the spec: the `Criterion(name, logger)` constructor body
is absent from the sources; it creates an exclusive criterion with an
empty value-pair table, state 0 and a zero modification counter. -/
def newExclusiveCriterion (name : String) : Criterion :=
  { mName := name, mValuePairs := [], mState := 0, nbModifications := 0,
    kind := .exclusive }

/-- Modelled from the spec: the `InclusiveCriterion(name, logger)`
constructor body is absent from the sources; it creates an inclusive
criterion with an empty value-pair table, state 0 and a zero modification
counter. -/
def newInclusiveCriterion (name : String) : Criterion :=
  { mName := name, mValuePairs := [], mState := 0, nbModifications := 0,
    kind := .inclusive }

/-- `Criterion::isInclusive`: false for the base kind, true for the
bitmask specialization. -/
def Criterion.isInclusive (c : Criterion) : Bool :=
  match c.kind with
  | .inclusive => true
  | .exclusive => false

/-- `Criterion::getCriterionState`. -/
def Criterion.getCriterionState (c : Criterion) : Nat := c.mState

/-- `Criterion::getCriterionName`. -/
def Criterion.getCriterionName (c : Criterion) : String := c.mName

/-- Modelled from the spec: the `Criterion::setCriterionState` body is
absent from the sources; it unconditionally stores the new state and
increments the modification counter iff the new state differs from the
previous one.  No error is signalled (the embedding is a total function on
criteria). -/
def Criterion.setCriterionState (c : Criterion) (iState : Nat) : Criterion :=
  if c.mState ≠ iState then
    { c with mState := iState, nbModifications := c.nbModifications + 1 }
  else
    { c with mState := iState }

/-- Modelled from the spec: `Criterion::hasBeenModified` is absent from
the sources; it reports whether the modification counter is nonzero. -/
def Criterion.hasBeenModified (c : Criterion) : Bool :=
  c.nbModifications > 0

/-- Modelled from the spec: `Criterion::resetModifiedStatus` is absent
from the sources; it sets the modification counter to 0. -/
def Criterion.resetModifiedStatus (c : Criterion) : Criterion :=
  { c with nbModifications := 0 }

/-- Modelled from the spec: the `Criterion::addValuePair` body is absent
from the sources. It fails with a descriptive error when the literal or
the numerical value is already registered, leaving the table unchanged;
otherwise it inserts the pair and succeeds. Result: (success flag, error
string, resulting criterion) — the C++ signature returns `bool` and fills
an `error` out-parameter. -/
def Criterion.addValuePair (c : Criterion) (numericalValue : Nat)
    (literalValue : String) : Bool × String × Criterion :=
  if (mapFind literalValue c.mValuePairs).isSome then
    (false, "Value pair with literal value already registered: " ++ literalValue, c)
  else if c.mValuePairs.any (fun p => p.2 == numericalValue) then
    (false, "Value pair with numerical value already registered", c)
  else
    (true, "",
     { c with mValuePairs := mapEmplace literalValue numericalValue c.mValuePairs })

/-- `Criterion::getNumericalValue`: lookup of the numeric value bound to a
literal; an absent mapping is a normal miss. (Modelled from the spec: the
body is absent from the sources; it looks the literal up in
`mValuePairs`.) -/
def Criterion.getNumericalValue (c : Criterion) (literalValue : String) : Option Nat :=
  mapFind literalValue c.mValuePairs

/-- First literal bound to a numerical value in a value-pair table, in
iteration order. -/
def findLiteral (n : Nat) : List (String × Nat) → Option String
  | [] => none
  | p :: rest => if p.2 = n then some p.1 else findLiteral n rest

/-- `Criterion::getLiteralValue`: lookup of the literal bound to a numeric
value; an absent mapping is a normal miss. (Modelled from the spec: the
body is absent from the sources; it scans `mValuePairs` for the value.) -/
def Criterion.getLiteralValue (c : Criterion) (numericalValue : Nat) : Option String :=
  findLiteral numericalValue c.mValuePairs

/-- `Criterion::isMatchMethodAvailable`: pure existence check in the
match-method table; total, never fails. -/
def Criterion.isMatchMethodAvailable (c : Criterion) (method : String) : Bool :=
  (mapFind method (matchMethodsOf c.kind)).isSome

/-- `Criterion::match`: looks the method up in the `const` match-method
table with `std::map::at` and invokes it on the state to match; the
`std::out_of_range` thrown on an unknown method propagates to the caller
(embedded as the `Except.error` of `mapAt`). -/
def Criterion.matchState (c : Criterion) (method : String) (state : Nat) :
    Except String Bool :=
  (mapAt method (matchMethodsOf c.kind)).map (fun f => f c.mState state)

/-- Modelled from the spec: `Criterion::checkFormattedStateEmptyness` is
absent from the sources; it substitutes the default "none" marker for an
empty formatted state. -/
def checkFormattedStateEmptyness (formattedState : String) : String :=
  if formattedState = "" then "<none>" else formattedState

/-- Modelled from the spec: `Criterion::getFormattedState` is absent from
the sources. Exclusive kind: the literal label of the current state, or
the default marker when no label matches. Inclusive kind: the literal
labels of the registered nonzero values wholly included in the current
bitmask, joined with "|"; the bits covered by no registered literal are
rendered as their raw numeric value; an empty rendering falls back to the
default marker. -/
def Criterion.getFormattedState (c : Criterion) : String :=
  match c.kind with
  | .exclusive =>
    checkFormattedStateEmptyness ((c.getLiteralValue c.mState).getD "")
  | .inclusive =>
    let selected := c.mValuePairs.filter
      (fun p => p.2 != 0 && c.mState &&& p.2 == p.2)
    let covered := selected.foldl (fun acc p => acc ||| p.2) 0
    let residual := c.mState ^^^ (c.mState &&& covered)
    let parts := selected.map (fun p => p.1) ++
      (if residual ≠ 0 then [toString residual] else [])
    checkFormattedStateEmptyness (String.intercalate "|" parts)

/-- Modelled from the spec: `Criterion::getFormattedDescription` is absent
from the sources; it renders the criterion name and formatted state, with
the kind on request, in a human-readable or machine-parseable form. -/
def Criterion.getFormattedDescription (c : Criterion)
    (bWithTypeInfo bHumanReadable : Bool) : String :=
  let typeInfo := if c.isInclusive then "Inclusive" else "Exclusive"
  if bHumanReadable then
    (if bWithTypeInfo then typeInfo ++ " criterion " else "Criterion ")
      ++ c.mName ++ " = " ++ c.getFormattedState
  else
    c.mName ++ (if bWithTypeInfo then " [" ++ typeInfo ++ "]" else "")
      ++ " = " ++ c.getFormattedState

/-! ## Criteria (registry), from `Criteria.cpp` -/

/-- State of a `core::criterion::Criteria` registry: the `mCriteria`
member, a `std::map` from name to exclusively-owned criterion. -/
structure Criteria where
  mCriteria : List (String × Criterion)
deriving DecidableEq, Repr

/-- `Criteria::Criteria()`: empty registry. -/
def Criteria.new : Criteria := { mCriteria := [] }

/-- `Criteria::getCriterionPointer`: `mCriteria.at(name)` with the
`std::out_of_range` caught and converted to `nullptr` (embedded as
`none`). -/
def Criteria.getCriterionPointer (cs : Criteria) (name : String) : Option Criterion :=
  match mapAt name cs.mCriteria with
  | Except.ok c => some c
  | Except.error _ => none

/-- `Criteria::createExclusiveCriterion`: emplaces a fresh exclusive
criterion under `name` and returns `getCriterionPointer(name)` on the
updated registry. -/
def Criteria.createExclusiveCriterion (cs : Criteria) (name : String) :
    Criteria × Option Criterion :=
  let updated : Criteria :=
    { mCriteria := mapEmplace name (newExclusiveCriterion name) cs.mCriteria }
  (updated, updated.getCriterionPointer name)

/-- `Criteria::createInclusiveCriterion`: emplaces a fresh inclusive
criterion under `name` and returns `getCriterionPointer(name)` on the
updated registry. -/
def Criteria.createInclusiveCriterion (cs : Criteria) (name : String) :
    Criteria × Option Criterion :=
  let updated : Criteria :=
    { mCriteria := mapEmplace name (newInclusiveCriterion name) cs.mCriteria }
  (updated, updated.getCriterionPointer name)

/-- `Criteria::getSelectionCriterion`: delegates to
`getCriterionPointer`. -/
def Criteria.getSelectionCriterion (cs : Criteria) (name : String) : Option Criterion :=
  cs.getCriterionPointer name

/-- `Criteria::listSelectionCriteria`: pushes one formatted description
per registered criterion, in registry iteration order.  The C++ method is
`const`: it only appends to the result list and leaves the registry
untouched, which the embedding reflects by returning only the list. -/
def Criteria.listSelectionCriteria (cs : Criteria)
    (withTypeInfo humanReadable : Bool) : List String :=
  cs.mCriteria.map
    (fun criterion => criterion.2.getFormattedDescription withTypeInfo humanReadable)

/-- `Criteria::resetModifiedStatus`: resets the modified status of every
registered criterion in one pass over the map. -/
def Criteria.resetModifiedStatus (cs : Criteria) : Criteria :=
  { mCriteria := cs.mCriteria.map
      (fun criterion => (criterion.1, criterion.2.resetModifiedStatus)) }

/-! ## Invariants and sample objects -/

/-- The bijectivity invariant on a value-pair table: no two entries share
a literal value and no two entries share a numerical value. -/
def PairsBijective (vp : List (String × Nat)) : Prop :=
  vp.Pairwise (fun p q => p.1 ≠ q.1 ∧ p.2 ≠ q.2)

instance (vp : List (String × Nat)) : Decidable (PairsBijective vp) :=
  inferInstanceAs (Decidable (vp.Pairwise _))

/-- Applies a sequence of `addValuePair` calls in order (the combinator
used to state the table invariant over arbitrary call sequences). -/
def applyAddValuePairs (c : Criterion) (ops : List (Nat × String)) : Criterion :=
  ops.foldl (fun acc o => (acc.addValuePair o.1 o.2).2.2) c

/-- A concrete exclusive criterion used to instantiate the theorems:
pairs A = 0 and B = 1, current state 1, one recorded modification. -/
def sampleExclusive : Criterion :=
  { mName := "Mode", mValuePairs := [("A", 0), ("B", 1)], mState := 1,
    nbModifications := 1, kind := .exclusive }

/-- A concrete inclusive criterion used to instantiate the theorems:
pairs X = 1, Y = 2, Z = 4 and current bitmask state 5. -/
def sampleInclusive : Criterion :=
  { mName := "Features", mValuePairs := [("X", 1), ("Y", 2), ("Z", 4)],
    mState := 5, nbModifications := 0, kind := .inclusive }

/-- A concrete registry holding the two sample criteria. -/
def sampleCriteria : Criteria :=
  { mCriteria := [("Features", sampleInclusive), ("Mode", sampleExclusive)] }

/-! ## Lemmas about the map embedding -/

theorem mapFind_eq_none_iff {V : Type} {k : String} {m : List (String × V)} :
    mapFind k m = none ↔ ∀ p ∈ m, p.1 ≠ k := by
  induction m with
  | nil => simp [mapFind]
  | cons p rest ih =>
    by_cases h : p.1 = k <;> simp [mapFind, h, ih]

theorem mapFind_append_of_none {V : Type} (k : String) {m₁ : List (String × V)}
    (m₂ : List (String × V)) (h : mapFind k m₁ = none) :
    mapFind k (m₁ ++ m₂) = mapFind k m₂ := by
  induction m₁ with
  | nil => simp
  | cons p rest ih =>
    by_cases hp : p.1 = k
    · simp [mapFind, hp] at h
    · simp only [mapFind, hp, if_false, List.cons_append] at h ⊢
      exact ih h

theorem mapFind_mapEmplace_self {V : Type} (k : String) (v : V)
    (m : List (String × V)) :
    mapFind k (mapEmplace k v m) = some ((mapFind k m).getD v) := by
  unfold mapEmplace
  cases h : mapFind k m with
  | some w => simp [h]
  | none =>
    simp only [h]
    rw [mapFind_append_of_none k _ h]
    simp [mapFind]

theorem mapEmplace_of_mapFind_some {V : Type} {k : String} {m : List (String × V)}
    (v : V) {w : V} (h : mapFind k m = some w) : mapEmplace k v m = m := by
  unfold mapEmplace
  rw [h]

theorem mem_mapEmplace {V : Type} {k : String} {v : V} {m : List (String × V)}
    {x : String × V} (h : x ∈ mapEmplace k v m) : x ∈ m ∨ x = (k, v) := by
  unfold mapEmplace at h
  cases hf : mapFind k m <;> rw [hf] at h
  · simpa using h
  · exact Or.inl h

theorem mapFind_of_mem {V : Type} {m : List (String × V)} {p : String × V}
    (hd : m.Pairwise (fun q r => q.1 ≠ r.1)) (hp : p ∈ m) :
    mapFind p.1 m = some p.2 := by
  induction m with
  | nil => cases hp
  | cons q rest ih =>
    rw [List.pairwise_cons] at hd
    rcases List.mem_cons.mp hp with h | h
    · subst h; simp [mapFind]
    · have hne : q.1 ≠ p.1 := hd.1 p h
      simp [mapFind, hne, ih hd.2 h]

theorem findLiteral_of_mem {m : List (String × Nat)} {p : String × Nat}
    (hd : m.Pairwise (fun q r => q.2 ≠ r.2)) (hp : p ∈ m) :
    findLiteral p.2 m = some p.1 := by
  induction m with
  | nil => cases hp
  | cons q rest ih =>
    rw [List.pairwise_cons] at hd
    rcases List.mem_cons.mp hp with h | h
    · subst h; simp [findLiteral]
    · have hne : q.2 ≠ p.2 := hd.1 p h
      simp [findLiteral, hne, ih hd.2 h]

theorem pairsBijective_addValuePair {c : Criterion} (n : Nat) (s : String)
    (h : PairsBijective c.mValuePairs) :
    PairsBijective ((c.addValuePair n s).2.2).mValuePairs := by
  unfold Criterion.addValuePair
  by_cases h1 : (mapFind s c.mValuePairs).isSome
  · simpa [h1] using h
  · by_cases h2 : c.mValuePairs.any (fun p => p.2 == n)
    · simpa [h1, h2] using h
    · have hfind : mapFind s c.mValuePairs = none :=
        Option.not_isSome_iff_eq_none.mp h1
      have hfresh : ∀ p ∈ c.mValuePairs, p.1 ≠ s := mapFind_eq_none_iff.mp hfind
      have hval : ∀ p ∈ c.mValuePairs, p.2 ≠ n := by
        intro p hp
        have := (List.any_eq_false).mp (Bool.eq_false_iff.mpr h2) p hp
        simpa using this
      simp only [h1, h2, Bool.false_eq_true, if_false, ite_false]
      unfold PairsBijective mapEmplace
      rw [hfind]
      rw [List.pairwise_append]
      refine ⟨h, List.pairwise_singleton _ _, ?_⟩
      intro p hp q hq
      rcases List.mem_singleton.mp hq with rfl
      exact ⟨hfresh p hp, hval p hp⟩

theorem pairsBijective_applyAddValuePairs (c : Criterion) (ops : List (Nat × String))
    (h : PairsBijective c.mValuePairs) :
    PairsBijective (applyAddValuePairs c ops).mValuePairs := by
  induction ops generalizing c with
  | nil => exact h
  | cons o rest ih =>
    exact ih _ (pairsBijective_addValuePair o.1 o.2 h)

/-! ## Claim theorems -/

/-- C1: for every criterion and method name absent from its match-method
table, `match` fails with the out-of-range "unknown method" error which
propagates to the caller as a catchable failure (never a silent `false`),
while `isMatchMethodAvailable` on the same name is a pure existence check
returning `false` without failing. -/
theorem match_unknown_method_fails (c : Criterion) (method : String) (state : Nat)
    (h : mapFind method (matchMethodsOf c.kind) = none) :
    c.matchState method state = Except.error "map::at: out of range" ∧
    c.isMatchMethodAvailable method = false := by
  constructor
  · simp [Criterion.matchState, mapAt, h, Except.map]
  · simp [Criterion.isMatchMethodAvailable, h]

/-- Witness for C1: the exclusive sample criterion has no "Includes"
method; `match` propagates the error and the availability probe returns
`false`. -/
theorem match_unknown_method_fails_witness :
    sampleExclusive.matchState "Includes" 1 = Except.error "map::at: out of range" ∧
    sampleExclusive.isMatchMethodAvailable "Includes" = false :=
  match_unknown_method_fails sampleExclusive "Includes" 1 rfl

/-- C2: an inclusive criterion matches "Includes" iff every argument bit
is set in the current state (hence argument 0 always matches) and matches
"Excludes" iff no argument bit is set; an exclusive criterion supports
exactly the methods "Is" (equality) and "Is Not" (inequality) and no
others. -/
theorem match_method_semantics (cInc cExc : Criterion) (a : Nat) (m : String)
    (hInc : cInc.kind = CriterionKind.inclusive)
    (hExc : cExc.kind = CriterionKind.exclusive) :
    (cInc.matchState "Includes" a = Except.ok true ↔ cInc.mState &&& a = a) ∧
    cInc.matchState "Includes" 0 = Except.ok true ∧
    (cInc.matchState "Excludes" a = Except.ok true ↔ cInc.mState &&& a = 0) ∧
    (cExc.isMatchMethodAvailable m = true ↔ m = "Is" ∨ m = "Is Not") ∧
    (cExc.matchState "Is" a = Except.ok true ↔ cExc.mState = a) ∧
    (cExc.matchState "Is Not" a = Except.ok true ↔ cExc.mState ≠ a) := by
  refine ⟨?_, ?_, ?_, ?_, ?_, ?_⟩
  · simp [Criterion.matchState, mapAt, mapFind, matchMethodsOf, hInc, Except.map]
  · simp [Criterion.matchState, mapAt, mapFind, matchMethodsOf, hInc, Except.map]
  · simp [Criterion.matchState, mapAt, mapFind, matchMethodsOf, hInc, Except.map]
  · simp only [Criterion.isMatchMethodAvailable, hExc, matchMethodsOf, mapFind]
    constructor
    · intro hm
      by_cases h1 : ("Is" : String) = m
      · exact Or.inl h1.symm
      · by_cases h2 : ("Is Not" : String) = m
        · exact Or.inr h2.symm
        · rw [if_neg h1, if_neg h2] at hm
          simp at hm
    · rintro (rfl | rfl) <;> simp
  · simp [Criterion.matchState, mapAt, mapFind, matchMethodsOf, hExc, Except.map]
  · simp [Criterion.matchState, mapAt, mapFind, matchMethodsOf, hExc, Except.map]

/-- Witness for C2: the inclusive sample (state 5) and exclusive sample
(state 1) at argument 5 and an arbitrary probe name. -/
theorem match_method_semantics_witness :
    (sampleInclusive.matchState "Includes" 5 = Except.ok true ↔
      sampleInclusive.mState &&& 5 = 5) ∧
    sampleInclusive.matchState "Includes" 0 = Except.ok true ∧
    (sampleInclusive.matchState "Excludes" 5 = Except.ok true ↔
      sampleInclusive.mState &&& 5 = 0) ∧
    (sampleExclusive.isMatchMethodAvailable "Excludes" = true ↔
      ("Excludes" : String) = "Is" ∨ ("Excludes" : String) = "Is Not") ∧
    (sampleExclusive.matchState "Is" 5 = Except.ok true ↔ sampleExclusive.mState = 5) ∧
    (sampleExclusive.matchState "Is Not" 5 = Except.ok true ↔ sampleExclusive.mState ≠ 5) :=
  match_method_semantics sampleInclusive sampleExclusive 5 "Excludes" rfl rfl

/-- C3: `setCriterionState` unconditionally stores the new state and
increments the modification counter exactly when the value changes;
`hasBeenModified` is false immediately after construction of either kind,
becomes true exactly on a changing set, and setting the current value
again never changes it. -/
theorem setCriterionState_modification (c : Criterion) (s : Nat) (name : String) :
    (c.setCriterionState s).mState = s ∧
    (newExclusiveCriterion name).hasBeenModified = false ∧
    (newInclusiveCriterion name).hasBeenModified = false ∧
    (c.setCriterionState s).hasBeenModified
      = (c.hasBeenModified || decide (c.mState ≠ s)) ∧
    (c.mState = s → (c.setCriterionState s).nbModifications = c.nbModifications) ∧
    (c.mState ≠ s → (c.setCriterionState s).nbModifications = c.nbModifications + 1) := by
  by_cases h : c.mState = s <;>
    simp [Criterion.setCriterionState, Criterion.hasBeenModified,
      newExclusiveCriterion, newInclusiveCriterion, h]

/-- Witness for C3: the exclusive sample criterion set to state 3. -/
theorem setCriterionState_modification_witness :
    (sampleExclusive.setCriterionState 3).mState = 3 ∧
    (newExclusiveCriterion "n").hasBeenModified = false ∧
    (newInclusiveCriterion "n").hasBeenModified = false ∧
    (sampleExclusive.setCriterionState 3).hasBeenModified
      = (sampleExclusive.hasBeenModified || decide (sampleExclusive.mState ≠ 3)) ∧
    (sampleExclusive.mState = 3 →
      (sampleExclusive.setCriterionState 3).nbModifications
        = sampleExclusive.nbModifications) ∧
    (sampleExclusive.mState ≠ 3 →
      (sampleExclusive.setCriterionState 3).nbModifications
        = sampleExclusive.nbModifications + 1) :=
  setCriterionState_modification sampleExclusive 3 "n"

/-- C4: `addValuePair` succeeds exactly when neither the literal nor the
numerical value is registered yet; on failure it reports a descriptive
nonempty error and leaves the criterion (hence its table) unchanged; a
successful add registers the pair, and immediately repeating the same add
fails without altering the table. -/
theorem addValuePair_duplicate_rejection (c : Criterion) (n : Nat) (s : String) :
    ((c.addValuePair n s).1 = true ↔
      mapFind s c.mValuePairs = none
        ∧ c.mValuePairs.all (fun p => p.2 != n) = true) ∧
    ((c.addValuePair n s).1 = false →
      (c.addValuePair n s).2.2 = c ∧ (c.addValuePair n s).2.1 ≠ "") ∧
    ((c.addValuePair n s).1 = true →
      (c.addValuePair n s).2.2.getNumericalValue s = some n ∧
      ((c.addValuePair n s).2.2.addValuePair n s).1 = false ∧
      ((c.addValuePair n s).2.2.addValuePair n s).2.2 = (c.addValuePair n s).2.2) := by
  by_cases h1 : (mapFind s c.mValuePairs).isSome
  · refine ⟨?_, ?_, ?_⟩
    · simp only [Criterion.addValuePair, h1, if_true]
      constructor
      · intro hf; cases hf
      · rintro ⟨hn, -⟩
        rw [hn] at h1
        cases h1
    · intro _
      constructor
      · simp [Criterion.addValuePair, h1]
      · simp only [Criterion.addValuePair, h1, if_true, ne_eq]
        intro he
        have hlen := congrArg String.length he
        simp at hlen
        exact absurd hlen.1 (by decide)
    · intro ht
      simp [Criterion.addValuePair, h1] at ht
  · have hfind : mapFind s c.mValuePairs = none :=
      Option.not_isSome_iff_eq_none.mp h1
    by_cases h2 : c.mValuePairs.any (fun p => p.2 == n)
    · refine ⟨?_, ?_, ?_⟩
      · simp only [Criterion.addValuePair, h1, h2, if_false, if_true,
          Bool.false_eq_true]
        constructor
        · intro hf; cases hf
        · rintro ⟨-, hall⟩
          rw [List.all_eq_true] at hall
          rw [List.any_eq_true] at h2
          obtain ⟨p, hp, hpn⟩ := h2
          have := hall p hp
          simp at hpn this
          exact absurd hpn this
      · intro _
        constructor
        · simp [Criterion.addValuePair, h1, h2]
        · simp [Criterion.addValuePair, h1, h2]
      · intro ht
        simp [Criterion.addValuePair, h1, h2] at ht
    · have hall : c.mValuePairs.all (fun p => p.2 != n) = true := by
        rw [List.all_eq_true]
        intro p hp
        by_contra hc
        apply h2
        rw [List.any_eq_true]
        refine ⟨p, hp, ?_⟩
        simpa using hc
      refine ⟨?_, ?_, ?_⟩
      · simp [Criterion.addValuePair, h1, h2, hfind, hall]
      · intro hf
        simp [Criterion.addValuePair, h1, h2] at hf
      · intro _
        have hins : mapFind s (mapEmplace s n c.mValuePairs) = some n := by
          rw [mapFind_mapEmplace_self, hfind]
          rfl
        refine ⟨?_, ?_, ?_⟩
        · simp only [Criterion.addValuePair, h1, h2, Bool.false_eq_true,
            if_false]
          exact hins
        · simp only [Criterion.addValuePair, h1, h2, Bool.false_eq_true,
            if_false]
          simp [Criterion.addValuePair, hins]
        · simp only [Criterion.addValuePair, h1, h2, Bool.false_eq_true,
            if_false]
          simp [Criterion.addValuePair, hins]

/-- Witness for C4: adding the fresh pair C = 7 to the exclusive sample
criterion. -/
theorem addValuePair_duplicate_rejection_witness :
    ((sampleExclusive.addValuePair 7 "C").1 = true ↔
      mapFind "C" sampleExclusive.mValuePairs = none
        ∧ sampleExclusive.mValuePairs.all (fun p => p.2 != 7) = true) ∧
    ((sampleExclusive.addValuePair 7 "C").1 = false →
      (sampleExclusive.addValuePair 7 "C").2.2 = sampleExclusive ∧
      (sampleExclusive.addValuePair 7 "C").2.1 ≠ "") ∧
    ((sampleExclusive.addValuePair 7 "C").1 = true →
      (sampleExclusive.addValuePair 7 "C").2.2.getNumericalValue "C" = some 7 ∧
      ((sampleExclusive.addValuePair 7 "C").2.2.addValuePair 7 "C").1 = false ∧
      ((sampleExclusive.addValuePair 7 "C").2.2.addValuePair 7 "C").2.2
        = (sampleExclusive.addValuePair 7 "C").2.2) :=
  addValuePair_duplicate_rejection sampleExclusive 7 "C"

/-- C5: from a bijective value-pair table, any sequence of `addValuePair`
calls keeps the table bijective (no two literals share a numerical value
and no two numerical values share a literal); on the resulting table the
two lookups are mutual inverses on every registered pair; and the other
mutators leave the table untouched. -/
theorem valuePairs_bijective_invariant (c : Criterion) (ops : List (Nat × String))
    (q : String × Nat) (st : Nat)
    (hbij : PairsBijective c.mValuePairs)
    (hq : q ∈ (applyAddValuePairs c ops).mValuePairs) :
    PairsBijective (applyAddValuePairs c ops).mValuePairs ∧
    (applyAddValuePairs c ops).getNumericalValue q.1 = some q.2 ∧
    (applyAddValuePairs c ops).getLiteralValue q.2 = some q.1 ∧
    (c.setCriterionState st).mValuePairs = c.mValuePairs ∧
    (c.resetModifiedStatus).mValuePairs = c.mValuePairs := by
  have hb := pairsBijective_applyAddValuePairs c ops hbij
  refine ⟨hb, ?_, ?_, ?_, rfl⟩
  · exact mapFind_of_mem (List.Pairwise.imp (fun h => h.1) hb) hq
  · exact findLiteral_of_mem (List.Pairwise.imp (fun h => h.2) hb) hq
  · by_cases h : c.mState = st <;> simp [Criterion.setCriterionState, h]

/-- Witness for C5: the inclusive sample criterion extended with the pair
W = 8, queried at the registered pair X = 1. -/
theorem valuePairs_bijective_invariant_witness :
    PairsBijective (applyAddValuePairs sampleInclusive [(8, "W")]).mValuePairs ∧
    (applyAddValuePairs sampleInclusive [(8, "W")]).getNumericalValue "X" = some 1 ∧
    (applyAddValuePairs sampleInclusive [(8, "W")]).getLiteralValue 1 = some "X" ∧
    (sampleInclusive.setCriterionState 9).mValuePairs = sampleInclusive.mValuePairs ∧
    (sampleInclusive.resetModifiedStatus).mValuePairs = sampleInclusive.mValuePairs :=
  valuePairs_bijective_invariant sampleInclusive [(8, "W")] ("X", 1) 9
    (by decide) (by decide)

/-- C6: looking up an unregistered name yields an absent handle and never
propagates a failure: the out-of-range condition of the underlying map
access is caught inside `getCriterionPointer` and converted to the absent
result, as the embedding shows explicitly. -/
theorem getCriterion_unknown_absent (cs : Criteria) (name : String)
    (h : mapFind name cs.mCriteria = none) :
    cs.getCriterionPointer name = none ∧
    cs.getSelectionCriterion name = none ∧
    mapAt name cs.mCriteria = Except.error "map::at: out of range" := by
  have he : mapAt name cs.mCriteria = Except.error "map::at: out of range" := by
    simp [mapAt, h]
  refine ⟨?_, ?_, he⟩ <;>
    simp [Criteria.getCriterionPointer, Criteria.getSelectionCriterion, he]

/-- Witness for C6: the sample registry holds no criterion named
"Volume". -/
theorem getCriterion_unknown_absent_witness :
    sampleCriteria.getCriterionPointer "Volume" = none ∧
    sampleCriteria.getSelectionCriterion "Volume" = none ∧
    mapAt "Volume" sampleCriteria.mCriteria
      = Except.error "map::at: out of range" :=
  getCriterion_unknown_absent sampleCriteria "Volume" (by decide)

/-- C7 counterexample: creating an inclusive criterion under the name of
an existing exclusive criterion does not overwrite the prior entry — the
registry afterwards still holds the exclusive criterion under that name
and is unchanged, refuting the claimed overwrite. -/
theorem create_duplicate_overwrite_counterexample :
    ((((Criteria.new.createExclusiveCriterion "Mode").1.createInclusiveCriterion
          "Mode").1.getCriterionPointer "Mode").map Criterion.isInclusive
        = some false) ∧
    (((Criteria.new.createExclusiveCriterion "Mode").1.createInclusiveCriterion
          "Mode").1
        = (Criteria.new.createExclusiveCriterion "Mode").1) := by
  decide

/-- C7 (amended): calling a factory method with an already-registered name
leaves the registry unchanged — the emplace attempt is ignored and the
prior entry kept — and the returned handle refers to the pre-existing
criterion. -/
theorem create_duplicate_keeps_prior (cs : Criteria) (name : String)
    (c0 : Criterion) (h : mapFind name cs.mCriteria = some c0) :
    (cs.createExclusiveCriterion name).1 = cs ∧
    (cs.createInclusiveCriterion name).1 = cs ∧
    (cs.createExclusiveCriterion name).2 = some c0 ∧
    (cs.createInclusiveCriterion name).2 = some c0 := by
  have he : mapEmplace name (newExclusiveCriterion name) cs.mCriteria
      = cs.mCriteria := mapEmplace_of_mapFind_some _ h
  have hi : mapEmplace name (newInclusiveCriterion name) cs.mCriteria
      = cs.mCriteria := mapEmplace_of_mapFind_some _ h
  refine ⟨?_, ?_, ?_, ?_⟩ <;>
    simp [Criteria.createExclusiveCriterion, Criteria.createInclusiveCriterion,
      Criteria.getCriterionPointer, mapAt, he, hi, h]

/-- Witness for C7 (amended): re-creating "Mode", already registered in
the sample registry. -/
theorem create_duplicate_keeps_prior_witness :
    (sampleCriteria.createExclusiveCriterion "Mode").1 = sampleCriteria ∧
    (sampleCriteria.createInclusiveCriterion "Mode").1 = sampleCriteria ∧
    (sampleCriteria.createExclusiveCriterion "Mode").2 = some sampleExclusive ∧
    (sampleCriteria.createInclusiveCriterion "Mode").2 = some sampleExclusive :=
  create_duplicate_keeps_prior sampleCriteria "Mode" sampleExclusive (by decide)

/-- C8: each factory method returns the handle to the entry stored in the
registry under the name — the newly constructed criterion when the name
was fresh, the untouched pre-existing criterion (possibly of the other
kind) when it was already registered — and that handle is never null. -/
theorem create_returns_registry_entry (cs : Criteria) (name : String) :
    (cs.createExclusiveCriterion name).2
      = some ((mapFind name cs.mCriteria).getD (newExclusiveCriterion name)) ∧
    (cs.createInclusiveCriterion name).2
      = some ((mapFind name cs.mCriteria).getD (newInclusiveCriterion name)) ∧
    mapFind name (cs.createExclusiveCriterion name).1.mCriteria
      = some ((mapFind name cs.mCriteria).getD (newExclusiveCriterion name)) ∧
    mapFind name (cs.createInclusiveCriterion name).1.mCriteria
      = some ((mapFind name cs.mCriteria).getD (newInclusiveCriterion name)) ∧
    (cs.createExclusiveCriterion name).2.isSome = true ∧
    (cs.createInclusiveCriterion name).2.isSome = true := by
  have hex := mapFind_mapEmplace_self name (newExclusiveCriterion name) cs.mCriteria
  have hin := mapFind_mapEmplace_self name (newInclusiveCriterion name) cs.mCriteria
  refine ⟨?_, ?_, hex, hin, ?_, ?_⟩ <;>
    simp [Criteria.createExclusiveCriterion, Criteria.createInclusiveCriterion,
      Criteria.getCriterionPointer, mapAt, hex, hin]

/-- C9: after `resetModifiedStatus` on the registry, every registered
criterion reports `hasBeenModified = false`; the single pass reaches every
entry and preserves the name sequence. -/
theorem resetModifiedStatus_clears_all (cs : Criteria) (p : String × Criterion)
    (hp : p ∈ cs.resetModifiedStatus.mCriteria) :
    p.2.hasBeenModified = false ∧
    cs.resetModifiedStatus.mCriteria.map Prod.fst = cs.mCriteria.map Prod.fst ∧
    cs.resetModifiedStatus.mCriteria.length = cs.mCriteria.length := by
  refine ⟨?_, ?_, ?_⟩
  · simp only [Criteria.resetModifiedStatus, List.mem_map] at hp
    obtain ⟨q, hq, rfl⟩ := hp
    simp [Criterion.resetModifiedStatus, Criterion.hasBeenModified]
  · simp [Criteria.resetModifiedStatus]
  · simp [Criteria.resetModifiedStatus]

/-- Witness for C9: the sample registry, whose "Mode" criterion had a
recorded modification before the reset. -/
theorem resetModifiedStatus_clears_all_witness :
    (("Mode", sampleExclusive.resetModifiedStatus) : String × Criterion).2.hasBeenModified
        = false ∧
    sampleCriteria.resetModifiedStatus.mCriteria.map Prod.fst
        = sampleCriteria.mCriteria.map Prod.fst ∧
    sampleCriteria.resetModifiedStatus.mCriteria.length
        = sampleCriteria.mCriteria.length :=
  resetModifiedStatus_clears_all sampleCriteria
    ("Mode", sampleExclusive.resetModifiedStatus) (by decide)

/-- C10: the listing has exactly one formatted description per registered
criterion — the lengths agree and the entry at every index is the
description of the criterion at the same index of the registry, so no
criterion is omitted, duplicated or reordered; the C++ method is `const`,
which the embedding reflects by returning only the description list and
leaving the registry value untouched. -/
theorem listCriteria_one_entry_each (cs : Criteria)
    (withTypeInfo humanReadable : Bool) (i : Nat) :
    (cs.listSelectionCriteria withTypeInfo humanReadable).length
      = cs.mCriteria.length ∧
    (cs.listSelectionCriteria withTypeInfo humanReadable)[i]?
      = (cs.mCriteria[i]?).map
          (fun q => q.2.getFormattedDescription withTypeInfo humanReadable) := by
  constructor
  · simp [Criteria.listSelectionCriteria]
  · simp [Criteria.listSelectionCriteria]

end PfwCriterion
